import Mathlib

/-!
# Verification of the `entropy_zero` wave-physics simulation core

This file gives a shallow embedding, in Lean 4, of the parts of the
`entropy_zero` repository that the specification's claims are about:

* the FDTD wave field and its stepper
  (`src/simulations/wave_physics/src/ripple_tank/physics.rs`,
  `update_wave_field`),
* wave-source injection (`apply_wave_sources`),
* obstacle rasterization (`rasterize_obstacles`),
* probe history updates (`update_probes`),
* the `WaveField` resource with `sample`, `clear_obstacles`
  (`ripple_tank/resources.rs`),
* the particle pool of the binary-spiral simulation
  (`binary_spiral/resources.rs` `ParticlePool::emit`,
  `binary_spiral/systems.rs` `update_particles`).

Modelling conventions:

* `f32` scalars are modelled by `ℚ` with exact arithmetic (decimal literals
  are read as exact rationals); rounding, NaN and infinities are idealized
  away.  The source's transcendental `sin` is passed around as an
  uninterpreted function `sinQ : ℚ → ℚ`, and the `f32` constant
  `std::f32::consts::PI` is embedded as the exact rational value `pi32` of
  that single-precision constant.
* Rust `Vec<f32>` buffers become `List ℚ`; reads are `List.getD _ _ 0`
  and writes are `List.set`.  Under the length invariants of the code all
  accesses are in bounds, so the `getD` default is never produced by an
  in-range read.
* Rust numeric casts are modelled explicitly: `f32 as usize` truncates
  toward zero and saturates at `0` from below, which on ℚ is exactly
  `Nat.floor`; `f32 as i32` truncates toward zero; `i32 as usize`
  reinterprets two's complement, i.e. reduces modulo `2 ^ 64`.
* Bevy systems that early-return while `config.paused` holds take an
  explicit `paused : Bool` argument.
-/

namespace EntropyZero

/-- Grid side length, `GRID_SIZE` in `ripple_tank/mod.rs`. -/
def GRID_SIZE : ℕ := 256

/-- World units per grid cell, `GRID_SCALE` in `ripple_tank/mod.rs`. -/
def GRID_SCALE : ℚ := 2

/-- Probe history capacity, `MAX_PROBE_HISTORY` in `ripple_tank/mod.rs`. -/
def MAX_PROBE_HISTORY : ℕ := 512

/-- Particle pool capacity, `MAX_PARTICLES` in `binary_spiral/mod.rs`. -/
def MAX_PARTICLES : ℕ := 200000

/-- Exact rational value of the 32-bit float constant `std::f32::consts::PI`
(bit pattern `0x40490FDB`). -/
def pi32 : ℚ := 13176795 / 4194304

/-- Rust `f32::clamp(lo, hi)` on ℚ (for `lo ≤ hi`, and ignoring NaN):
values below `lo` go to `lo`, values above `hi` go to `hi`. -/
def clampQ (v lo hi : ℚ) : ℚ := max (min v hi) lo

/-- Truncation of a rational toward zero, the rounding used by Rust
float-to-integer `as` casts. -/
def ratTrunc (q : ℚ) : ℤ := if q < 0 then -⌊-q⌋ else ⌊q⌋

/-- Rust `f32 as usize` on ℚ: truncation toward zero saturating at `0`
from below, which is exactly `Nat.floor`.  (The saturation at
`usize::MAX` from above is irrelevant here: every cast result is only
ever compared against grid dimensions far below `2 ^ 64`.) -/
def f32ToUsize (q : ℚ) : ℕ := ⌊q⌋₊

/-- Rust `f32 as i32` on ℚ: truncation toward zero, saturating at the
`i32` range bounds. -/
def f32ToI32 (q : ℚ) : ℤ := max (-(2 ^ 31)) (min (2 ^ 31 - 1) (ratTrunc q))

/-- Rust `i32 as usize` (64-bit target): two's-complement reinterpretation,
i.e. reduction modulo `2 ^ 64`.  Negative coordinates thus become huge
indices that fail every `x < width` bounds check, as in the source. -/
def i32ToUsize (z : ℤ) : ℕ := (z % 2 ^ 64).toNat

/-- Rust inclusive range `a..=b` over the integers, as a list. -/
def rangeIncl (a b : ℤ) : List ℤ := (List.range (b + 1 - a).toNat).map (fun k => a + k)

/-- Rust `f32` `%` (remainder with the sign of the dividend) on ℚ:
`a - b * trunc(a / b)`. -/
def remQ (a b : ℚ) : ℚ := a - b * (ratTrunc (a / b) : ℚ)

/-- Rust `f32::signum` on ℚ (ignoring NaN): `1` for non-negative values
(`+0.0` has sign `1.0`), `-1` for negative ones. -/
def signumQ (q : ℚ) : ℚ := if q < 0 then -1 else 1

/-! ## The wave field (`ripple_tank/resources.rs`) -/

/-- The `WaveField` resource: three row-major buffers indexed by
`y * width + x`, plus the grid dimensions. -/
structure WaveField where
  current : List ℚ
  previous : List ℚ
  obstacle_map : List ℚ
  width : ℕ
  height : ℕ

/-- `WaveField::clear`: zero `current` and `previous`, leave the
obstacle map alone. -/
def WaveField.clear (f : WaveField) : WaveField :=
  { f with current := List.replicate f.current.length 0,
           previous := List.replicate f.previous.length 0 }

/-- `WaveField::clear_obstacles`: `self.obstacle_map.fill(1.0)`. -/
def WaveField.clear_obstacles (f : WaveField) : WaveField :=
  { f with obstacle_map := List.replicate f.obstacle_map.length 1 }

/-- `WaveField::sample`: map a world position to a grid cell with
`as usize` casts and return the current amplitude there, or `0.0` when
the computed cell fails the bounds check. -/
def WaveField.sample (f : WaveField) (world_x world_y : ℚ) : ℚ :=
  let grid_x := f32ToUsize (world_x / GRID_SCALE + (f.width : ℚ) / 2)
  let grid_y := f32ToUsize (world_y / GRID_SCALE + (f.height : ℚ) / 2)
  if grid_x < f.width ∧ grid_y < f.height then
    f.current.getD (grid_y * f.width + grid_x) 0
  else 0

/-- The sampling contract as the specification words it: the cell is
`(floor(world_x / cell_scale + width/2), floor(world_y / cell_scale + height/2))`
with the mathematical (integer) floor, and any cell outside
`[0, width) × [0, height)` yields `0.0`.  Written from the spec, to be
compared against `WaveField.sample` from the source. -/
def sampleSpec (f : WaveField) (world_x world_y : ℚ) : ℚ :=
  let gx : ℤ := ⌊world_x / GRID_SCALE + (f.width : ℚ) / 2⌋
  let gy : ℤ := ⌊world_y / GRID_SCALE + (f.height : ℚ) / 2⌋
  if 0 ≤ gx ∧ gx < (f.width : ℤ) ∧ 0 ≤ gy ∧ gy < (f.height : ℤ) then
    f.current.getD (gy.toNat * f.width + gx.toNat) 0
  else 0

/-- Modelled from the amended claim: the computed index is the
mathematical floor clamped below at `0` (Rust's saturating `as usize`
cast); a cell whose clamped index reaches `width` or `height` yields
`0.0`, and otherwise the stored amplitude at the clamped cell is
returned — so world positions left of or below the grid read column or
row `0` instead of returning the sentinel. -/
def sampleAmended (f : WaveField) (world_x world_y : ℚ) : ℚ :=
  let gx : ℤ := max 0 ⌊world_x / GRID_SCALE + (f.width : ℚ) / 2⌋
  let gy : ℤ := max 0 ⌊world_y / GRID_SCALE + (f.height : ℚ) / 2⌋
  if gx < (f.width : ℤ) ∧ gy < (f.height : ℤ) then
    f.current.getD (gy.toNat * f.width + gx.toNat) 0
  else 0

/-! ## The FDTD stepper (`ripple_tank/physics.rs`, `update_wave_field`) -/

/-- Value the stepper's interior double loop stores into `next[idx]` for an
interior cell `idx`: `0.0` for a fully blocking cell, otherwise the damped
second-order update of the discrete wave equation, clamped to `[-5, 5]`.
All reads are from the pre-step buffers. -/
def stepInterior (c2 damping : ℚ) (f : WaveField) (idx : ℕ) : ℚ :=
  let obstacle := f.obstacle_map.getD idx 0
  if obstacle = 0 then 0
  else
    let laplacian := f.current.getD (idx - 1) 0 + f.current.getD (idx + 1) 0
      + f.current.getD (idx - f.width) 0 + f.current.getD (idx + f.width) 0
      - 4 * f.current.getD idx 0
    let effective_c2 := c2 * obstacle * obstacle
    clampQ (damping * (2 * f.current.getD idx 0 - f.previous.getD idx 0
      + effective_c2 * laplacian)) (-5) 5

/-- Combined effect on cell `(x, y)` of the four absorbing-boundary loops,
each of which multiplies the cells of one border row or column by `0.5`:
one factor `1/2` per border the cell lies on (corner cells collect two). -/
def boundaryFactor (w h x y : ℕ) : ℚ :=
  (if y = 0 then (1 : ℚ) / 2 else 1) * (if y = h - 1 then (1 : ℚ) / 2 else 1)
    * (if x = 0 then (1 : ℚ) / 2 else 1) * (if x = w - 1 then (1 : ℚ) / 2 else 1)

/-- Body of `update_wave_field` (the unpaused path), acting on the field:
allocate a zero-filled `next` buffer, write every interior cell from the
pre-step buffers, scale the border rows and columns by `0.5`, then rotate
buffers (`previous ← current`, `current ← next`).  `c` is
`config.wave_speed`, `damping` is `config.damping`; the accumulated-time
bookkeeping does not touch the field and is handled with the injector. -/
def update_wave_field (c damping : ℚ) (f : WaveField) : WaveField :=
  let c2 := (c * (2 / 5)) ^ 2
  let next := (List.range (f.width * f.height)).map (fun idx =>
    let x := idx % f.width
    let y := idx / f.width
    let v := if 1 ≤ x ∧ x < f.width - 1 ∧ 1 ≤ y ∧ y < f.height - 1 then
        stepInterior c2 damping f idx
      else 0
    boundaryFactor f.width f.height x y * v)
  { f with current := next, previous := f.current }

/-- The `update_wave_field` system including its `config.paused` early
return. -/
def update_wave_field_sys (paused : Bool) (c damping : ℚ) (f : WaveField) : WaveField :=
  if paused then f else update_wave_field c damping f

/-! ## Wave sources (`ripple_tank/components.rs`, `physics.rs` `apply_wave_sources`) -/

/-- The `Waveform` enum. -/
inductive Waveform
  | Sine
  | Square
  | Pulse
deriving DecidableEq

/-- The `WaveSourceType` enum; the phased array carries its element count
(`count : u8` in the source, embedded as ℕ). -/
inductive WaveSourceType
  | Point
  | Line
  | PhasedArray (count : ℕ)
  | Moving
deriving DecidableEq

/-- The `WaveSource` component. -/
structure WaveSource where
  source_type : WaveSourceType
  frequency : ℚ
  amplitude : ℚ
  phase : ℚ
  enabled : Bool
  waveform : Waveform

/-- The per-source driving value of `apply_wave_sources`, computed from
the waveform selection at accumulated time `t`; `sinQ` stands for `f32`
sine. -/
def sourceValue (sinQ : ℚ → ℚ) (t : ℚ) (s : WaveSource) : ℚ :=
  match s.waveform with
  | Waveform.Sine => s.amplitude * sinQ (2 * pi32 * s.frequency * t + s.phase)
  | Waveform.Square => s.amplitude * signumQ (sinQ (2 * pi32 * s.frequency * t + s.phase))
  | Waveform.Pulse =>
      let phase := remQ (s.frequency * t + s.phase / (2 * pi32)) 1
      if phase < 1 / 10 then s.amplitude else 0

/-- Effect of one source in the `apply_wave_sources` loop: stamp the
driving value into the grid cells the source covers, with every write
bounds-checked.  `tx, ty` are the source's transform translation. -/
def applySource (sinQ : ℚ → ℚ) (t : ℚ) (f : WaveField) (tx ty : ℚ) (s : WaveSource) :
    WaveField :=
  if s.enabled = false then f else
  let grid_x := f32ToUsize (tx / GRID_SCALE + (f.width : ℚ) / 2)
  let grid_y := f32ToUsize (ty / GRID_SCALE + (f.height : ℚ) / 2)
  let value := sourceValue sinQ t s
  match s.source_type with
  | WaveSourceType.Point | WaveSourceType.Moving =>
      if grid_x < f.width ∧ grid_y < f.height then
        { f with current := f.current.set (grid_y * f.width + grid_x) value }
      else f
  | WaveSourceType.Line =>
      let half_len := 20
      { f with current := (List.range (half_len * 2)).foldl (fun cur dx =>
          let x := grid_x - half_len + dx
          if x < f.width ∧ grid_y < f.height then
            cur.set (grid_y * f.width + x) value
          else cur) f.current }
  | WaveSourceType.PhasedArray count =>
      let spacing := 8
      let total_w := (count - 1) * spacing
      let start_x := grid_x - total_w / 2
      { f with current := (List.range count).foldl (fun cur i =>
          let x := start_x + i * spacing
          let phase_offset := (i : ℚ) * (1 / 5)
          let phased_value :=
            s.amplitude * sinQ (2 * pi32 * s.frequency * t + s.phase + phase_offset)
          if x < f.width ∧ grid_y < f.height then
            cur.set (grid_y * f.width + x) phased_value
          else cur) f.current }

/-- The `apply_wave_sources` system: early return while paused, otherwise
fold the per-source stamping over the queried `(Transform, WaveSource)`
pairs in iteration order. -/
def apply_wave_sources (paused : Bool) (sinQ : ℚ → ℚ) (t : ℚ) (f : WaveField)
    (sources : List (ℚ × ℚ × WaveSource)) : WaveField :=
  if paused then f
  else sources.foldl (fun g src => applySource sinQ t g src.1 src.2.1 src.2.2) f

/-! ## Probe history (`physics.rs`, `update_probes`) -/

/-- One `update_probes` tick for a single probe history: push the newly
sampled value at the back, then, if the capacity is exceeded, `remove(0)`
— drop exactly the oldest element from the front. -/
def update_probe_tick (value : ℚ) (history : List ℚ) : List ℚ :=
  let h := history ++ [value]
  if MAX_PROBE_HISTORY < h.length then h.tail else h

/-- A probe's history after being ticked with the given samples in order,
starting from the empty history a freshly spawned probe carries
(`Vec::with_capacity` in `Probe::new`). -/
def run_probe (samples : List ℚ) : List ℚ :=
  samples.foldl (fun h v => update_probe_tick v h) []

/-! ## Obstacle rasterization (`physics.rs`, `rasterize_obstacles`) -/

/-- The `ObstacleType` enum. -/
inductive ObstacleType
  | Reflector
  | SingleSlit
  | DoubleSlit
  | RefractionBlock
deriving DecidableEq

/-- The `Obstacle` component (geometry in world units). -/
structure Obstacle where
  obstacle_type : ObstacleType
  width : ℚ
  height : ℚ
  rotation : ℚ
  slit_width : ℚ
  slit_separation : ℚ
  refractive_index : ℚ

/-- Effect of one obstacle on the obstacle map in the `rasterize_obstacles`
loop, over grid dimensions `w × h`: the obstacle's footprint is scanned by
inclusive `i32` ranges around its center and each covered, in-bounds cell
is overwritten (`0.0` for blocking kinds, the reciprocal refractive index
for a refraction block); slit kinds skip the cells inside their slits. -/
def applyObstacle (w h : ℕ) (map : List ℚ) (ob : ℚ × ℚ × Obstacle) : List ℚ :=
  let tx := ob.1
  let ty := ob.2.1
  let o := ob.2.2
  let center_x := f32ToI32 (tx / GRID_SCALE + (w : ℚ) / 2)
  let center_y := f32ToI32 (ty / GRID_SCALE + (h : ℚ) / 2)
  let half_w := f32ToI32 (o.width / GRID_SCALE / 2)
  let half_h := f32ToI32 (o.height / GRID_SCALE / 2)
  match o.obstacle_type with
  | ObstacleType.Reflector =>
      (rangeIncl (-half_h) half_h).foldl (fun m dy =>
        (rangeIncl (-half_w) half_w).foldl (fun m dx =>
          let x := i32ToUsize (center_x + dx)
          let y := i32ToUsize (center_y + dy)
          if x < w ∧ y < h then m.set (y * w + x) 0 else m) m) map
  | ObstacleType.SingleSlit =>
      let slit_half := f32ToI32 (o.slit_width / GRID_SCALE / 2)
      (rangeIncl (-half_h) half_h).foldl (fun m dy =>
        (rangeIncl (-half_w) half_w).foldl (fun m dx =>
          if |dx| ≤ slit_half then m
          else
            let x := i32ToUsize (center_x + dx)
            let y := i32ToUsize (center_y + dy)
            if x < w ∧ y < h then m.set (y * w + x) 0 else m) m) map
  | ObstacleType.DoubleSlit =>
      let slit_half := f32ToI32 (o.slit_width / GRID_SCALE / 2)
      let sep_half := f32ToI32 (o.slit_separation / GRID_SCALE / 2)
      (rangeIncl (-half_h) half_h).foldl (fun m dy =>
        (rangeIncl (-half_w) half_w).foldl (fun m dx =>
          let in_slit1 := |dx - sep_half| ≤ slit_half
          let in_slit2 := |dx + sep_half| ≤ slit_half
          if in_slit1 ∨ in_slit2 then m
          else
            let x := i32ToUsize (center_x + dx)
            let y := i32ToUsize (center_y + dy)
            if x < w ∧ y < h then m.set (y * w + x) 0 else m) m) map
  | ObstacleType.RefractionBlock =>
      let speed_factor := 1 / o.refractive_index
      (rangeIncl (-half_h) half_h).foldl (fun m dy =>
        (rangeIncl (-half_w) half_w).foldl (fun m dx =>
          let x := i32ToUsize (center_x + dx)
          let y := i32ToUsize (center_y + dy)
          if x < w ∧ y < h then m.set (y * w + x) speed_factor else m) m) map

/-- The `rasterize_obstacles` system: reset the obstacle map to all-`1.0`
via `clear_obstacles`, then rasterize every queried `(Transform, Obstacle)`
pair in iteration order. -/
def rasterize_obstacles (f : WaveField) (obstacles : List (ℚ × ℚ × Obstacle)) :
    WaveField :=
  let f0 := f.clear_obstacles
  { f0 with obstacle_map :=
      obstacles.foldl (applyObstacle f0.width f0.height) f0.obstacle_map }

/-! ## The particle pool (`binary_spiral/resources.rs`, `systems.rs`) -/

/-- A 3-component vector of scalars, standing for both `Vec3` and
`[f32; 3]`. -/
structure Vec3 where
  x : ℚ
  y : ℚ
  z : ℚ
deriving DecidableEq

/-- Componentwise `Vec3` addition (`position += velocity`). -/
instance : Add Vec3 := ⟨fun a b => ⟨a.x + b.x, a.y + b.y, a.z + b.z⟩⟩

/-- The `Particle` pool slot; `life : u32` is embedded as ℕ with
saturating subtraction. -/
structure Particle where
  position : Vec3
  velocity : Vec3
  color : Vec3
  life : ℕ
  active : Bool
deriving DecidableEq

/-- The all-zero, inactive particle `Particle::default()` fills fresh
pools with. -/
def Particle.zero : Particle := ⟨⟨0, 0, 0⟩, ⟨0, 0, 0⟩, ⟨0, 0, 0⟩, 0, false⟩

/-- The fixed-capacity `ParticlePool` resource with its ring cursor. -/
structure ParticlePool where
  particles : List Particle
  next_index : ℕ

/-- `ParticlePool::emit`: overwrite the slot at `next_index` with the new
particle data, mark it active, and advance the cursor one step around the
ring. -/
def ParticlePool.emit (pool : ParticlePool) (position velocity color : Vec3)
    (life : ℕ) : ParticlePool :=
  { particles := pool.particles.set pool.next_index
      { position := position, velocity := velocity, color := color,
        life := life, active := true },
    next_index := (pool.next_index + 1) % MAX_PARTICLES }

/-- Per-particle body of the `update_particles` loop: an active particle
drifts by its velocity (a flat per-frame displacement — no `dt` factor),
its life is decremented with saturation at zero, and it is deactivated
when the decremented life reaches zero; inactive particles are untouched. -/
def stepParticle (p : Particle) : Particle :=
  if p.active then
    let life := p.life - 1
    { p with position := p.position + p.velocity, life := life,
             active := if life = 0 then false else p.active }
  else p

/-- The `update_particles` system including its `config.paused` early
return. -/
def update_particles (paused : Bool) (pool : ParticlePool) : ParticlePool :=
  if paused then pool
  else { pool with particles := pool.particles.map stepParticle }

/-! ## General lemmas -/

lemma getD_map_range (n : ℕ) (g : ℕ → ℚ) (i : ℕ) (h : i < n) :
    ((List.range n).map g).getD i 0 = g i := by
  simp [List.getD_eq_getElem?_getD, List.getElem?_map, List.getElem?_range, h]

lemma idx_mod (x y w : ℕ) (hx : x < w) : (y * w + x) % w = x := by
  rw [Nat.mul_add_mod', Nat.mod_eq_of_lt hx]

lemma idx_div (x y w : ℕ) (hx : x < w) : (y * w + x) / w = y := by
  rw [Nat.mul_comm y w, Nat.mul_add_div (by omega), Nat.div_eq_of_lt hx]
  omega

lemma idx_lt (x y w h : ℕ) (hx : x < w) (hy : y < h) : y * w + x < w * h := by
  calc y * w + x < (y + 1) * w := by nlinarith
  _ ≤ h * w := Nat.mul_le_mul_right w hy
  _ = w * h := Nat.mul_comm h w

lemma clampQ_mem (v : ℚ) : -5 ≤ clampQ v (-5) 5 ∧ clampQ v (-5) 5 ≤ 5 :=
  ⟨le_max_right _ _, max_le (min_le_right _ _) (by norm_num)⟩

lemma boundaryFactor_mem (w h x y : ℕ) :
    0 < boundaryFactor w h x y ∧ boundaryFactor w h x y ≤ 1 := by
  unfold boundaryFactor
  split_ifs <;> norm_num

lemma scale_mem (fa v : ℚ) (h0 : 0 < fa) (h1 : fa ≤ 1) (hl : -5 ≤ v) (hr : v ≤ 5) :
    -5 ≤ fa * v ∧ fa * v ≤ 5 := by
  constructor <;> nlinarith

/-! ## Pointwise description of one stepper call -/

lemma update_current_getD (c damping : ℚ) (f : WaveField) (i : ℕ)
    (hi : i < f.width * f.height) :
    (update_wave_field c damping f).current.getD i 0 =
      boundaryFactor f.width f.height (i % f.width) (i / f.width) *
        (if 1 ≤ i % f.width ∧ i % f.width < f.width - 1
            ∧ 1 ≤ i / f.width ∧ i / f.width < f.height - 1 then
          stepInterior ((c * (2 / 5)) ^ 2) damping f i
        else 0) := by
  unfold update_wave_field
  rw [getD_map_range _ _ _ hi]

lemma update_current_getD_oob (c damping : ℚ) (f : WaveField) (i : ℕ)
    (hi : f.width * f.height ≤ i) :
    (update_wave_field c damping f).current.getD i 0 = 0 := by
  unfold update_wave_field
  exact List.getD_eq_default _ _ (by simpa using hi)

/-- C1: for every unpaused FDTD step and every interior cell
`(x, y)` (with `1 ≤ x ≤ width-2`, `1 ≤ y ≤ height-2`) whose obstacle
coefficient is non-zero, the amplitude `update_wave_field` writes equals
`clamp(damping * (2*current - previous + (wave_speed*0.4)^2 * obstacle^2 *
laplacian), -5, 5)` with the Laplacian the sum of the four axis-neighbor
current values minus `4*current`, all read from the pre-step buffers; and
after the step `previous` holds the pre-step `current` values. -/
theorem C1_interior_update (paused : Bool) (c damping : ℚ) (f : WaveField) (x y : ℕ)
    (hp : paused = false)
    (hx1 : 1 ≤ x) (hx2 : x ≤ f.width - 2) (hy1 : 1 ≤ y) (hy2 : y ≤ f.height - 2)
    (hob : f.obstacle_map.getD (y * f.width + x) 0 ≠ 0) :
    (update_wave_field_sys paused c damping f).current.getD (y * f.width + x) 0 =
      clampQ (damping * (2 * f.current.getD (y * f.width + x) 0
          - f.previous.getD (y * f.width + x) 0
          + (c * (2 / 5)) ^ 2 * (f.obstacle_map.getD (y * f.width + x) 0) ^ 2 *
            (f.current.getD (y * f.width + x - 1) 0
              + f.current.getD (y * f.width + x + 1) 0
              + f.current.getD (y * f.width + x - f.width) 0
              + f.current.getD (y * f.width + x + f.width) 0
              - 4 * f.current.getD (y * f.width + x) 0))) (-5) 5
    ∧ (update_wave_field_sys paused c damping f).previous = f.current := by
  subst hp
  have hw : 3 ≤ f.width := by omega
  have hh : 3 ≤ f.height := by omega
  have hxw : x < f.width := by omega
  have hyh : y < f.height := by omega
  rw [update_wave_field_sys, if_neg (by simp)]
  refine ⟨?_, rfl⟩
  rw [update_current_getD _ _ _ _ (idx_lt x y _ _ hxw hyh),
    idx_mod x y _ hxw, idx_div x y _ hxw,
    if_pos (by refine ⟨hx1, by omega, hy1, by omega⟩)]
  have hbf : boundaryFactor f.width f.height x y = 1 := by
    unfold boundaryFactor
    rw [if_neg (by omega), if_neg (by omega), if_neg (by omega), if_neg (by omega)]
    norm_num
  rw [hbf, one_mul, stepInterior, if_neg hob]
  unfold clampQ
  ring_nf

/-- Concrete instantiation of the stepper theorems: a 3×3 field whose
center cell holds amplitude 1 in an all-transmitting medium. -/
def wf3 : WaveField :=
  { current := [0, 0, 0, 0, 1, 0, 0, 0, 0],
    previous := List.replicate 9 0,
    obstacle_map := List.replicate 9 1,
    width := 3, height := 3 }

theorem C1_interior_update_witness :
    (update_wave_field_sys false 1 1 wf3).current.getD (1 * wf3.width + 1) 0 =
      clampQ (1 * (2 * wf3.current.getD (1 * wf3.width + 1) 0
          - wf3.previous.getD (1 * wf3.width + 1) 0
          + ((1 : ℚ) * (2 / 5)) ^ 2 * (wf3.obstacle_map.getD (1 * wf3.width + 1) 0) ^ 2 *
            (wf3.current.getD (1 * wf3.width + 1 - 1) 0
              + wf3.current.getD (1 * wf3.width + 1 + 1) 0
              + wf3.current.getD (1 * wf3.width + 1 - wf3.width) 0
              + wf3.current.getD (1 * wf3.width + 1 + wf3.width) 0
              - 4 * wf3.current.getD (1 * wf3.width + 1) 0))) (-5) 5
    ∧ (update_wave_field_sys false 1 1 wf3).previous = wf3.current :=
  C1_interior_update false 1 1 wf3 1 1 rfl (by decide) (by decide) (by decide)
    (by decide) (by decide)

/-- C2: after every unpaused FDTD stepper call, every cell of the
`current` buffer lies in `[-5, 5]`.  The bound comes from the clamp alone
and holds for arbitrary pre-step buffers, hence at every time step and in
particular for any source amplitude within the UI-exposed range
(`amplitude ≤ 2.0`). -/
theorem C2_amplitude_bound (paused : Bool) (c damping : ℚ) (f : WaveField) (i : ℕ)
    (hp : paused = false) :
    -5 ≤ (update_wave_field_sys paused c damping f).current.getD i 0
    ∧ (update_wave_field_sys paused c damping f).current.getD i 0 ≤ 5 := by
  subst hp
  rw [update_wave_field_sys, if_neg (by simp)]
  rcases lt_or_le i (f.width * f.height) with hi | hi
  · rw [update_current_getD _ _ _ _ hi]
    obtain ⟨hbf0, hbf1⟩ := boundaryFactor_mem f.width f.height (i % f.width) (i / f.width)
    refine scale_mem _ _ hbf0 hbf1 ?_ ?_ <;>
      · split_ifs with h
        · rw [stepInterior]
          split_ifs with hob
          · norm_num
          · first
            | exact (clampQ_mem _).1
            | exact (clampQ_mem _).2
        · norm_num
  · rw [update_current_getD_oob _ _ _ _ hi]
    norm_num

theorem C2_amplitude_bound_witness :
    -5 ≤ (update_wave_field_sys false 1 1 wf3).current.getD 4 0
    ∧ (update_wave_field_sys false 1 1 wf3).current.getD 4 0 ≤ 5 :=
  C2_amplitude_bound false 1 1 wf3 4 rfl

/-- C3: after any unpaused FDTD stepper call, every cell whose obstacle
coefficient is `0.0` holds amplitude exactly `0.0`, regardless of the
amplitudes in the buffers before the step. -/
theorem C3_blocked_cells_zero (paused : Bool) (c damping : ℚ) (f : WaveField) (i : ℕ)
    (hp : paused = false)
    (hob : f.obstacle_map.getD i 0 = 0) :
    (update_wave_field_sys paused c damping f).current.getD i 0 = 0 := by
  subst hp
  rw [update_wave_field_sys, if_neg (by simp)]
  rcases lt_or_le i (f.width * f.height) with hi | hi
  · rw [update_current_getD _ _ _ _ hi]
    split_ifs with h
    · rw [stepInterior, if_pos hob, mul_zero]
    · rw [mul_zero]
  · exact update_current_getD_oob _ _ _ _ hi

/-- Concrete instantiation for the blocked-cell theorem: the 3×3 field
with a fully blocking center cell that nevertheless holds amplitude 1. -/
def wf3blocked : WaveField :=
  { current := [0, 0, 0, 0, 1, 0, 0, 0, 0],
    previous := List.replicate 9 0,
    obstacle_map := [1, 1, 1, 1, 0, 1, 1, 1, 1],
    width := 3, height := 3 }

theorem C3_blocked_cells_zero_witness :
    (update_wave_field_sys false 1 1 wf3blocked).current.getD 4 0 = 0 :=
  C3_blocked_cells_zero false 1 1 wf3blocked 4 rfl (by decide)

/-- C10: after every unpaused FDTD stepper call, every cell on one of the
four border rows or columns (`x = 0`, `x = width-1`, `y = 0`,
`y = height-1`) of the `current` buffer is exactly `0.0`, for any prior
buffer contents: the freshly allocated `next` buffer is zero-filled, only
interior cells are written, and the absorbing-boundary `0.5` scaling
(applied twice at the corners) maps `0` to `0`. -/
theorem C10_border_zero (paused : Bool) (c damping : ℚ) (f : WaveField) (x y : ℕ)
    (hp : paused = false)
    (hx : x < f.width) (hy : y < f.height)
    (hb : x = 0 ∨ x = f.width - 1 ∨ y = 0 ∨ y = f.height - 1) :
    (update_wave_field_sys paused c damping f).current.getD (y * f.width + x) 0 = 0 := by
  subst hp
  rw [update_wave_field_sys, if_neg (by simp)]
  rw [update_current_getD _ _ _ _ (idx_lt x y _ _ hx hy),
    idx_mod x y _ hx, idx_div x y _ hx, if_neg (by omega), mul_zero]

theorem C10_border_zero_witness :
    (update_wave_field_sys false 1 1 wf3).current.getD (2 * wf3.width + 0) 0 = 0 :=
  C10_border_zero false 1 1 wf3 0 2 rfl (by decide) (by decide) (by decide)

/-- Concrete field for the sampling counterexample: 2×2 grid whose cell
`(0, 0)` holds amplitude 7. -/
def wf2 : WaveField :=
  { current := [7, 0, 0, 0],
    previous := List.replicate 4 0,
    obstacle_map := List.replicate 4 1,
    width := 2, height := 2 }

/-- C4 counterexample: at world position `(-5/2, -2)` on a 2×2 grid the
spec's cell is `(floor(-1/4), floor 0) = (-1, 0)`, which lies outside
`[0, width) × [0, height)`, so the claim demands `sample = 0.0`; the code's
saturating `as usize` cast instead lands on column `0` and returns the
stored amplitude `7`.  (`sampleSpec` is the claim's own mapping, for
comparison.) -/
theorem C4_sample_counterexample :
    WaveField.sample wf2 (-5 / 2) (-2) = 7
    ∧ ⌊(-5 / 2 : ℚ) / GRID_SCALE + (wf2.width : ℚ) / 2⌋ = -1
    ∧ sampleSpec wf2 (-5 / 2) (-2) = 0 := by
  refine ⟨?_, ?_, ?_⟩
  · have h0 : (⌊(-(1 / 4) : ℚ)⌋₊ : ℕ) = 0 := Nat.floor_of_nonpos (by norm_num)
    norm_num [WaveField.sample, f32ToUsize, GRID_SCALE, wf2, h0]
  · norm_num [GRID_SCALE, wf2]
  · norm_num [sampleSpec, GRID_SCALE, wf2]

/-- C4 amended: `sample` computes its cell with Rust's saturating
float-to-`usize` cast — the mathematical floor clamped below at `0` — so
positions whose floor index is negative read column/row `0` (and return
that cell's amplitude) instead of being treated as out of bounds; indices
at or beyond `width`/`height` still return `0.0` without error. -/
theorem C4_amended_sample (f : WaveField) (wx wy : ℚ) :
    f.sample wx wy = sampleAmended f wx wy := by
  unfold WaveField.sample sampleAmended f32ToUsize
  have hga : (max 0 ⌊wx / GRID_SCALE + (f.width : ℚ) / 2⌋).toNat
      = ⌊wx / GRID_SCALE + (f.width : ℚ) / 2⌋.toNat := by omega
  have hgb : (max 0 ⌊wy / GRID_SCALE + (f.height : ℚ) / 2⌋).toNat
      = ⌊wy / GRID_SCALE + (f.height : ℚ) / 2⌋.toNat := by omega
  rw [← Int.floor_toNat, ← Int.floor_toNat, ← hga, ← hgb]
  by_cases hc : max 0 ⌊wx / GRID_SCALE + (f.width : ℚ) / 2⌋ < (f.width : ℤ)
    ∧ max 0 ⌊wy / GRID_SCALE + (f.height : ℚ) / 2⌋ < (f.height : ℤ)
  · rw [if_pos (by omega), if_pos hc]
  · rw [if_neg (by omega), if_neg hc]

/-- C5: whenever `next_index ∈ [0, capacity)`, `emit` never fails and
never changes the pool's length; it overwrites exactly the slot at
`next_index` with the given fields and marks it active (whether or not
the slot was still active), leaves every other slot unchanged, and
advances `next_index` to `(next_index + 1) % capacity`, keeping it inside
`[0, capacity)`. -/
theorem C5_emit_overwrites_slot (pool : ParticlePool)
    (position velocity color : Vec3) (life : ℕ)
    (hlen : pool.particles.length = MAX_PARTICLES)
    (hidx : pool.next_index < MAX_PARTICLES) :
    (pool.emit position velocity color life).particles.length = pool.particles.length
    ∧ (pool.emit position velocity color life).particles.getD pool.next_index Particle.zero
        = { position := position, velocity := velocity, color := color,
            life := life, active := true }
    ∧ (∀ j, j ≠ pool.next_index →
        (pool.emit position velocity color life).particles.getD j Particle.zero
          = pool.particles.getD j Particle.zero)
    ∧ (pool.emit position velocity color life).next_index
        = (pool.next_index + 1) % MAX_PARTICLES
    ∧ (pool.emit position velocity color life).next_index < MAX_PARTICLES := by
  refine ⟨List.length_set _ _ _, ?_, ?_, rfl, ?_⟩
  · rw [ParticlePool.emit, List.getD_eq_getElem?_getD,
      List.getElem?_set_eq_of_lt _ (by omega)]
    rfl
  · intro j hj
    rw [ParticlePool.emit, List.getD_eq_getElem?_getD,
      List.getElem?_set_ne (fun h => hj h.symm), ← List.getD_eq_getElem?_getD]
  · rw [ParticlePool.emit]
    exact Nat.mod_lt _ (by omega)

theorem C5_emit_overwrites_slot_witness :
    ((ParticlePool.mk (List.replicate MAX_PARTICLES Particle.zero) 0).emit
        ⟨1, 2, 3⟩ ⟨4, 5, 6⟩ ⟨7, 8, 9⟩ 30).particles.length
      = (ParticlePool.mk (List.replicate MAX_PARTICLES Particle.zero) 0).particles.length
    ∧ ((ParticlePool.mk (List.replicate MAX_PARTICLES Particle.zero) 0).emit
        ⟨1, 2, 3⟩ ⟨4, 5, 6⟩ ⟨7, 8, 9⟩ 30).particles.getD 0 Particle.zero
        = { position := ⟨1, 2, 3⟩, velocity := ⟨4, 5, 6⟩, color := ⟨7, 8, 9⟩,
            life := 30, active := true }
    ∧ (∀ j, j ≠ 0 →
        ((ParticlePool.mk (List.replicate MAX_PARTICLES Particle.zero) 0).emit
          ⟨1, 2, 3⟩ ⟨4, 5, 6⟩ ⟨7, 8, 9⟩ 30).particles.getD j Particle.zero
          = (ParticlePool.mk (List.replicate MAX_PARTICLES Particle.zero) 0).particles.getD
              j Particle.zero)
    ∧ ((ParticlePool.mk (List.replicate MAX_PARTICLES Particle.zero) 0).emit
        ⟨1, 2, 3⟩ ⟨4, 5, 6⟩ ⟨7, 8, 9⟩ 30).next_index = (0 + 1) % MAX_PARTICLES
    ∧ ((ParticlePool.mk (List.replicate MAX_PARTICLES Particle.zero) 0).emit
        ⟨1, 2, 3⟩ ⟨4, 5, 6⟩ ⟨7, 8, 9⟩ 30).next_index < MAX_PARTICLES :=
  C5_emit_overwrites_slot _ _ _ _ _ (by simp) (by decide)

lemma stepParticle_inactive (p : Particle) (h : p.active = false) : stepParticle p = p := by
  rw [stepParticle, if_neg (by simp [h])]

lemma stepParticle_active (p : Particle) (h : p.active = true) :
    (stepParticle p).position = p.position + p.velocity
    ∧ (stepParticle p).velocity = p.velocity
    ∧ (stepParticle p).color = p.color
    ∧ (stepParticle p).life = p.life - 1
    ∧ ((stepParticle p).active = true ↔ p.life - 1 ≠ 0) := by
  rw [stepParticle, if_pos h]
  refine ⟨rfl, rfl, rfl, rfl, ?_⟩
  rcases Nat.eq_zero_or_pos (p.life - 1) with h0 | h0
  · simp [h0]
  · simp [Nat.pos_iff_ne_zero.mp h0, h]

/-- C6: on an unpaused particle-pool update, every active particle's
position is incremented by exactly its velocity (no `dt` factor), its
life is decremented by one with saturation at zero, and it is deactivated
exactly when the decremented life is zero (its velocity and color are
untouched); particles inactive before the update are left entirely
unchanged, and the pool's length never changes. -/
theorem C6_update_particles (paused : Bool) (pool : ParticlePool)
    (hp : paused = false) :
    (update_particles paused pool).particles.length = pool.particles.length
    ∧ ∀ i, i < pool.particles.length →
        ((pool.particles.getD i Particle.zero).active = false →
          (update_particles paused pool).particles.getD i Particle.zero
            = pool.particles.getD i Particle.zero)
        ∧ ((pool.particles.getD i Particle.zero).active = true →
            ((update_particles paused pool).particles.getD i Particle.zero).position
                = (pool.particles.getD i Particle.zero).position
                  + (pool.particles.getD i Particle.zero).velocity
            ∧ ((update_particles paused pool).particles.getD i Particle.zero).velocity
                = (pool.particles.getD i Particle.zero).velocity
            ∧ ((update_particles paused pool).particles.getD i Particle.zero).color
                = (pool.particles.getD i Particle.zero).color
            ∧ ((update_particles paused pool).particles.getD i Particle.zero).life
                = (pool.particles.getD i Particle.zero).life - 1
            ∧ (((update_particles paused pool).particles.getD i Particle.zero).active = true
                ↔ (pool.particles.getD i Particle.zero).life - 1 ≠ 0)) := by
  subst hp
  rw [update_particles, if_neg (by simp)]
  refine ⟨List.length_map _ _, ?_⟩
  intro i hi
  have hmap : (pool.particles.map stepParticle).getD i Particle.zero
      = stepParticle (pool.particles.getD i Particle.zero) := by
    rw [List.getD_eq_getElem?_getD, List.getElem?_map, List.getElem?_eq_getElem hi,
      List.getD_eq_getElem?_getD, List.getElem?_eq_getElem hi]
    rfl
  rw [hmap]
  set p := pool.particles.getD i Particle.zero with hpdef
  constructor
  · exact stepParticle_inactive p
  · exact stepParticle_active p

/-- Concrete pool for the update witness: one active particle about to
expire and one inactive particle. -/
def pool2 : ParticlePool :=
  { particles :=
      [{ position := ⟨1, 1, 1⟩, velocity := ⟨2, 0, 0⟩, color := ⟨1, 0, 0⟩,
         life := 1, active := true },
       { position := ⟨5, 5, 5⟩, velocity := ⟨0, 1, 0⟩, color := ⟨0, 1, 0⟩,
         life := 9, active := false }],
    next_index := 0 }

theorem C6_update_particles_witness :
    (update_particles false pool2).particles.length = pool2.particles.length
    ∧ ∀ i, i < pool2.particles.length →
        ((pool2.particles.getD i Particle.zero).active = false →
          (update_particles false pool2).particles.getD i Particle.zero
            = pool2.particles.getD i Particle.zero)
        ∧ ((pool2.particles.getD i Particle.zero).active = true →
            ((update_particles false pool2).particles.getD i Particle.zero).position
                = (pool2.particles.getD i Particle.zero).position
                  + (pool2.particles.getD i Particle.zero).velocity
            ∧ ((update_particles false pool2).particles.getD i Particle.zero).velocity
                = (pool2.particles.getD i Particle.zero).velocity
            ∧ ((update_particles false pool2).particles.getD i Particle.zero).color
                = (pool2.particles.getD i Particle.zero).color
            ∧ ((update_particles false pool2).particles.getD i Particle.zero).life
                = (pool2.particles.getD i Particle.zero).life - 1
            ∧ (((update_particles false pool2).particles.getD i Particle.zero).active = true
                ↔ (pool2.particles.getD i Particle.zero).life - 1 ≠ 0)) :=
  C6_update_particles false pool2 rfl

/-- Effect of a left fold of guarded in-bounds writes at pairwise distinct
positions: length is preserved, position `pos i` ends up holding `val i`,
and every other index is untouched. -/
lemma foldl_range_set_spec (n : ℕ) (pos : ℕ → ℕ) (val : ℕ → ℚ) (c : ℕ → Prop)
    [DecidablePred c] (l : List ℚ)
    (hc : ∀ i, i < n → c i)
    (hpos : ∀ i, i < n → pos i < l.length)
    (hinj : ∀ i j, i < n → j < n → pos i = pos j → i = j) :
    ((List.range n).foldl
        (fun cur i => if c i then cur.set (pos i) (val i) else cur) l).length = l.length
    ∧ (∀ i, i < n →
        ((List.range n).foldl
          (fun cur i => if c i then cur.set (pos i) (val i) else cur) l).getD (pos i) 0
          = val i)
    ∧ (∀ k, (∀ i, i < n → pos i ≠ k) →
        ((List.range n).foldl
          (fun cur i => if c i then cur.set (pos i) (val i) else cur) l).getD k 0
          = l.getD k 0) := by
  induction n with
  | zero => simp
  | succ m ih =>
    obtain ⟨ihL, ihW, ihU⟩ := ih (fun i hi => hc i (by omega))
      (fun i hi => hpos i (by omega))
      (fun i j hi hj => hinj i j (by omega) (by omega))
    rw [List.range_succ, List.foldl_append]
    simp only [List.foldl_cons, List.foldl_nil]
    rw [if_pos (hc m (by omega))]
    refine ⟨?_, ?_, ?_⟩
    · rw [List.length_set, ihL]
    · intro i hi
      rcases Nat.lt_or_ge i m with him | him
      · have hne : pos m ≠ pos i := fun h => by
          have := hinj m i (by omega) (by omega) h
          omega
        rw [List.getD_eq_getElem?_getD, List.getElem?_set_ne hne,
          ← List.getD_eq_getElem?_getD]
        exact ihW i him
      · have hieq : i = m := by omega
        subst hieq
        rw [List.getD_eq_getElem?_getD,
          List.getElem?_set_eq_of_lt _ (by rw [ihL]; exact hpos i (by omega))]
        rfl
    · intro k hk
      rw [List.getD_eq_getElem?_getD, List.getElem?_set_ne (hk m (by omega)),
        ← List.getD_eq_getElem?_getD]
      exact ihU k (fun i hi => hk i (by omega))

/-- C7: an unpaused injection pass over a single enabled
`PhasedArray(count)` source whose elements all fall inside the grid
writes exactly `count` cells on the source's row, spaced 8 cells apart
and centered on the source cell `gx` (element `i` sits at
`gx - (count-1)*4 + i*8`); element `i` receives
`amplitude * sin(2*pi*frequency*t + phase + i*0.2)` — a sine computed
independently per element for any selected waveform — all other cells
and the other buffers are untouched, and out-of-grid elements would be
clipped by the per-element bounds check. -/
theorem C7_phased_array (paused : Bool) (sinQ : ℚ → ℚ) (t : ℚ) (f : WaveField)
    (tx ty : ℚ) (s : WaveSource) (count : ℕ)
    (hp : paused = false)
    (hen : s.enabled = true)
    (hst : s.source_type = WaveSourceType.PhasedArray count)
    (hcl : f.current.length = f.width * f.height)
    (hgx1 : (count - 1) * 4 ≤ f32ToUsize (tx / GRID_SCALE + (f.width : ℚ) / 2))
    (hgx2 : f32ToUsize (tx / GRID_SCALE + (f.width : ℚ) / 2) + (count - 1) * 4 < f.width)
    (hgy : f32ToUsize (ty / GRID_SCALE + (f.height : ℚ) / 2) < f.height) :
    (∀ i, i < count →
      (apply_wave_sources paused sinQ t f [(tx, ty, s)]).current.getD
          (f32ToUsize (ty / GRID_SCALE + (f.height : ℚ) / 2) * f.width
            + (f32ToUsize (tx / GRID_SCALE + (f.width : ℚ) / 2) - (count - 1) * 4 + i * 8)) 0
        = s.amplitude * sinQ (2 * pi32 * s.frequency * t + s.phase + (i : ℚ) * (1 / 5)))
    ∧ (∀ k, (∀ i, i < count →
          f32ToUsize (ty / GRID_SCALE + (f.height : ℚ) / 2) * f.width
            + (f32ToUsize (tx / GRID_SCALE + (f.width : ℚ) / 2) - (count - 1) * 4 + i * 8) ≠ k) →
        (apply_wave_sources paused sinQ t f [(tx, ty, s)]).current.getD k 0
          = f.current.getD k 0)
    ∧ (apply_wave_sources paused sinQ t f [(tx, ty, s)]).current.length = f.current.length
    ∧ (apply_wave_sources paused sinQ t f [(tx, ty, s)]).previous = f.previous
    ∧ (apply_wave_sources paused sinQ t f [(tx, ty, s)]).obstacle_map = f.obstacle_map := by
  subst hp
  obtain ⟨st, freq, amp, ph, en, wfm⟩ := s
  simp only at hen hst
  subst hen hst
  set gx := f32ToUsize (tx / GRID_SCALE + (f.width : ℚ) / 2) with hgxdef
  set gy := f32ToUsize (ty / GRID_SCALE + (f.height : ℚ) / 2) with hgydef
  rw [apply_wave_sources, if_neg (by simp), List.foldl_cons, List.foldl_nil]
  rw [applySource]
  simp only [Bool.true_eq_false, if_false]
  have hdiv : (count - 1) * 8 / 2 = (count - 1) * 4 := by omega
  rw [hdiv]
  obtain ⟨hL, hW, hU⟩ := foldl_range_set_spec count
    (fun i => gy * f.width + (gx - (count - 1) * 4 + i * 8))
    (fun i => amp * sinQ (2 * pi32 * freq * t + ph + (i : ℚ) * (1 / 5)))
    (fun i => gx - (count - 1) * 4 + i * 8 < f.width ∧ gy < f.height)
    f.current
    (fun i hi => ⟨by omega, hgy⟩)
    (fun i hi => by
      rw [hcl]
      exact idx_lt _ _ _ _ (by omega) hgy)
    (fun i j hi hj h => by simp only at h; omega)
  refine ⟨fun i hi => hW i hi, fun k hk => hU k hk, hL, ?_, ?_⟩ <;> trivial

/-- Concrete phased-array source for the injection witness: five
elements, the scenario of the specification. -/
def srcPA : WaveSource :=
  { source_type := WaveSourceType.PhasedArray 5, frequency := 2, amplitude := 1,
    phase := 0, enabled := true, waveform := Waveform.Sine }

/-- Concrete 40×1 field for the injection witness. -/
def wfRow : WaveField :=
  { current := List.replicate 40 0, previous := [], obstacle_map := [],
    width := 40, height := 1 }

theorem C7_phased_array_witness :
    (∀ i, i < 5 →
      (apply_wave_sources false (fun q => q) 0 wfRow [(0, -1, srcPA)]).current.getD
          (f32ToUsize ((-1) / GRID_SCALE + (wfRow.height : ℚ) / 2) * wfRow.width
            + (f32ToUsize (0 / GRID_SCALE + (wfRow.width : ℚ) / 2) - (5 - 1) * 4 + i * 8)) 0
        = srcPA.amplitude * (fun q => q)
            (2 * pi32 * srcPA.frequency * 0 + srcPA.phase + (i : ℚ) * (1 / 5)))
    ∧ (∀ k, (∀ i, i < 5 →
          f32ToUsize ((-1) / GRID_SCALE + (wfRow.height : ℚ) / 2) * wfRow.width
            + (f32ToUsize (0 / GRID_SCALE + (wfRow.width : ℚ) / 2) - (5 - 1) * 4 + i * 8) ≠ k) →
        (apply_wave_sources false (fun q => q) 0 wfRow [(0, -1, srcPA)]).current.getD k 0
          = wfRow.current.getD k 0)
    ∧ (apply_wave_sources false (fun q => q) 0 wfRow [(0, -1, srcPA)]).current.length
        = wfRow.current.length
    ∧ (apply_wave_sources false (fun q => q) 0 wfRow [(0, -1, srcPA)]).previous
        = wfRow.previous
    ∧ (apply_wave_sources false (fun q => q) 0 wfRow [(0, -1, srcPA)]).obstacle_map
        = wfRow.obstacle_map :=
  C7_phased_array false (fun q => q) 0 wfRow 0 (-1) srcPA 5 rfl rfl rfl
    (by simp [wfRow])
    (by norm_num [f32ToUsize, GRID_SCALE, wfRow])
    (by norm_num [f32ToUsize, GRID_SCALE, wfRow])
    (by norm_num [f32ToUsize, GRID_SCALE, wfRow])

lemma foldl_length_preserve {α : Type} (step : List ℚ → α → List ℚ)
    (hstep : ∀ m a, (step m a).length = m.length) (l : List α) (m : List ℚ) :
    (l.foldl step m).length = m.length := by
  induction l generalizing m with
  | nil => rfl
  | cons a l ih => rw [List.foldl_cons, ih, hstep]

lemma applyObstacle_length (w h : ℕ) (ob : ℚ × ℚ × Obstacle) (m : List ℚ) :
    (applyObstacle w h m ob).length = m.length := by
  obtain ⟨tx, ty, o⟩ := ob
  obtain ⟨ot, ow, ohh, orot, osw, oss, ori⟩ := o
  cases ot <;>
  · simp only [applyObstacle]
    refine foldl_length_preserve _ (fun m dy => ?_) _ _
    refine foldl_length_preserve _ (fun m dx => ?_) _ _
    split_ifs <;> simp [List.length_set]

/-- C8: obstacle rasterization is frame-stateless.  Given the same
obstacle set iterated in the same order, the resulting `obstacle_map` is
a function of the obstacle set and the grid dimensions alone — any two
fields of equal dimensions rasterize to identical maps regardless of
their prior `obstacle_map` contents — and in particular running
`clear_obstacles()`-plus-rasterization twice in a row yields the same
`obstacle_map` both times. -/
theorem C8_rasterize_stateless (f g : WaveField) (obstacles : List (ℚ × ℚ × Obstacle))
    (hw : f.width = g.width) (hh : f.height = g.height)
    (hlen : f.obstacle_map.length = g.obstacle_map.length) :
    (rasterize_obstacles f obstacles).obstacle_map
      = (rasterize_obstacles g obstacles).obstacle_map
    ∧ (rasterize_obstacles (rasterize_obstacles f obstacles) obstacles).obstacle_map
      = (rasterize_obstacles f obstacles).obstacle_map := by
  have key : ∀ a b : WaveField, a.width = b.width → a.height = b.height →
      a.obstacle_map.length = b.obstacle_map.length →
      (rasterize_obstacles a obstacles).obstacle_map
        = (rasterize_obstacles b obstacles).obstacle_map := by
    intro a b h1 h2 h3
    simp only [rasterize_obstacles, WaveField.clear_obstacles]
    rw [h1, h2, h3]
  have hlen2 : (rasterize_obstacles f obstacles).obstacle_map.length
      = f.obstacle_map.length := by
    simp only [rasterize_obstacles, WaveField.clear_obstacles]
    rw [foldl_length_preserve _ (fun m ob => applyObstacle_length _ _ ob m) obstacles _]
    simp
  exact ⟨key f g hw hh hlen, key _ f rfl rfl hlen2⟩

theorem C8_rasterize_stateless_witness :
    (rasterize_obstacles (WaveField.mk [] [] [5, 7] 2 1)
        [(0, 0, Obstacle.mk ObstacleType.Reflector 2 2 0 0 0 1)]).obstacle_map
      = (rasterize_obstacles (WaveField.mk [] [] [0, 3] 2 1)
          [(0, 0, Obstacle.mk ObstacleType.Reflector 2 2 0 0 0 1)]).obstacle_map
    ∧ (rasterize_obstacles
          (rasterize_obstacles (WaveField.mk [] [] [5, 7] 2 1)
            [(0, 0, Obstacle.mk ObstacleType.Reflector 2 2 0 0 0 1)])
          [(0, 0, Obstacle.mk ObstacleType.Reflector 2 2 0 0 0 1)]).obstacle_map
      = (rasterize_obstacles (WaveField.mk [] [] [5, 7] 2 1)
          [(0, 0, Obstacle.mk ObstacleType.Reflector 2 2 0 0 0 1)]).obstacle_map :=
  C8_rasterize_stateless (WaveField.mk [] [] [5, 7] 2 1) (WaveField.mk [] [] [0, 3] 2 1)
    [(0, 0, Obstacle.mk ObstacleType.Reflector 2 2 0 0 0 1)] rfl rfl rfl

lemma run_probe_aux_length (vs : List ℚ) :
    ∀ h : List ℚ, h.length ≤ MAX_PROBE_HISTORY →
      (vs.foldl (fun acc v => update_probe_tick v acc) h).length
        = min (h.length + vs.length) MAX_PROBE_HISTORY := by
  induction vs with
  | nil =>
    intro h hle
    simp only [List.foldl_nil, List.length_nil, Nat.add_zero]
    omega
  | cons v vs ih =>
    intro h hle
    have hstep : (update_probe_tick v h).length
        = min (h.length + 1) MAX_PROBE_HISTORY := by
      rw [update_probe_tick]
      split_ifs with hc
      · rw [List.length_tail, List.length_append]
        rw [List.length_append] at hc
        simp only [List.length_singleton] at hc ⊢
        omega
      · rw [List.length_append]
        rw [List.length_append] at hc
        simp only [List.length_singleton] at hc ⊢
        omega
    rw [List.foldl_cons, ih _ (by omega), hstep, List.length_cons]
    omega

/-- C9: starting from the empty history a fresh probe carries, each
`update_probes` tick appends the newest sample at the back and, once the
capacity is exceeded, removes exactly the oldest element from the front;
after more than `MAX_PROBE_HISTORY` (512) ticks the history has length
exactly 512 and its first element is what was the second-oldest sample
before the last push (FIFO eviction, not circular overwrite). -/
theorem C9_probe_fifo (samples : List ℚ) (v : ℚ)
    (hlen : MAX_PROBE_HISTORY ≤ samples.length) :
    (run_probe (samples ++ [v])).length = MAX_PROBE_HISTORY
    ∧ (run_probe (samples ++ [v])).getD 0 0 = (run_probe samples).getD 1 0 := by
  have h1 : (run_probe samples).length = MAX_PROBE_HISTORY := by
    rw [run_probe, run_probe_aux_length samples [] (by simp)]
    simp only [List.length_nil, Nat.zero_add]
    omega
  have hsplit : run_probe (samples ++ [v]) = update_probe_tick v (run_probe samples) := by
    rw [run_probe, run_probe, List.foldl_append, List.foldl_cons, List.foldl_nil]
  rw [hsplit]
  have hne : run_probe samples ≠ [] := by
    intro he
    rw [he] at h1
    simp [MAX_PROBE_HISTORY] at h1
  obtain ⟨a, h', heq⟩ := List.exists_cons_of_ne_nil hne
  rw [heq] at h1 ⊢
  rw [List.length_cons] at h1
  rw [update_probe_tick,
    if_pos (by rw [List.length_append, List.length_cons]; simp; omega)]
  constructor
  · rw [List.length_tail, List.length_append, List.length_cons]
    simp
    omega
  · rw [List.cons_append, List.tail_cons, List.getD_eq_getElem?_getD,
      List.getElem?_append_left (by rw [MAX_PROBE_HISTORY] at h1; omega),
      List.getD_eq_getElem?_getD,
      List.getElem?_cons_succ]

theorem C9_probe_fifo_witness :
    (run_probe (List.replicate 512 (0 : ℚ) ++ [1])).length = MAX_PROBE_HISTORY
    ∧ (run_probe (List.replicate 512 (0 : ℚ) ++ [1])).getD 0 0
        = (run_probe (List.replicate 512 (0 : ℚ))).getD 1 0 :=
  C9_probe_fifo (List.replicate 512 0) 1 (by rw [List.length_replicate]; exact Nat.le.refl)

end EntropyZero
